import Mathlib

/-!
Shallow embedding of the scoring and ranking engine of `src/bible.py`
(functions `load_nrc_lexicon`, `analyze_emotions`, `analyze_sentiments`,
`get_top_verses`, `rank_books`), together with theorems settling the
specification claims about them.

Modelling conventions:
  * A file on disk is `Option (List String)` (missing file = `none`,
    otherwise the list of lines).
  * Python dicts built by insertion are association lists with Python's
    insertion-order semantics (updating an existing key keeps its
    position, a new key is appended).
  * The VADER polarity analyzer, an external library, is an oracle
    parameter `polarity : String → Polarity`; `nltk.word_tokenize`,
    which may raise on unsupported input, is an oracle
    `tok : String → Option (List String)` (`none` = the call raised).
  * VADER scores are `Rat` (exact arithmetic stands in for floats).
  * `pandas.sort_values(ascending=False)` with the code's default
    `kind='quicksort'` promises only some permutation of the rows sorted
    by the key column; the order of equal keys is unspecified (quicksort
    is documented as not stable). That contract is `SortValuesResult`;
    the executable model `sortDescBy` is one concrete refinement of it,
    and only tie-order-agnostic consequences of the model are claimed of
    the program. `pandas.groupby` sorts the group keys ascending (its
    `sort=True` default).
  * String primitives (`strip`, `split`, `int` parsing, string `<=`) are
    modelled structurally on character lists so that concrete runs reduce
    in the kernel; `int(value)` failing to parse is the raised
    `ValueError`, so `load_nrc_lexicon` returns
    `Except String (Option Lexicon)` (`.error` = the exception escaping
    the function, `.ok none` = Python's `None`).
-/

/-- A row of the prepared bible dataframe: `Book`, `Chapter`, `Verse`, `Text`. -/
structure Verse where
  book : String
  chapter : Int
  verse : Int
  text : String
deriving DecidableEq

/-- The four scores produced by VADER `polarity_scores`. -/
structure Polarity where
  pos : Rat
  neg : Rat
  neu : Rat
  compound : Rat
deriving DecidableEq

/-- The NRC lexicon: word → (emotion → intensity), as an insertion-ordered
association list, mirroring the nested Python dicts. -/
abbrev Lexicon := List (String × List (String × Int))

/-- The fixed list of 8 emotion categories from `analyze_emotions`. -/
def emotions : List String :=
  ["joy", "trust", "fear", "surprise", "sadness", "disgust", "anger", "anticipation"]

/-- Python truthiness of the `nrc_lexicon` global: `None` is falsy and so is
an empty dict. -/
def lexTruthy : Option Lexicon → Bool
  | none => false
  | some l => !l.isEmpty

/-- Python `str.strip()` on the characters of a line: drop leading and
trailing whitespace. -/
def trimChars (cs : List Char) : List Char :=
  ((cs.dropWhile Char.isWhitespace).reverse.dropWhile Char.isWhitespace).reverse

/-- Python `str.split('\t')` on characters: split at every tab, keeping
empty fields (`""` splits to one empty field). -/
def splitTab : List Char → List (List Char)
  | [] => [[]]
  | c :: rest =>
      if c = '\t' then [] :: splitTab rest
      else
        match splitTab rest with
        | [] => [[c]]
        | f :: fs => (c :: f) :: fs

/-- The tab-separated fields of a stripped line, as in
`line.strip().split('\t')`. -/
def lineFields (line : String) : List String :=
  (splitTab (trimChars line.toList)).map List.asString

/-- Digit run of a Python integer literal. -/
def parseNatChars (acc : Nat) : List Char → Option Nat
  | [] => some acc
  | c :: rest =>
      if c.isDigit then parseNatChars (acc * 10 + (c.toNat - 48)) rest else none

/-- Sign and digits of a Python integer literal. -/
def parseIntChars : List Char → Option Int
  | [] => none
  | c :: rest =>
      if c = '-' then
        if rest = [] then none else (parseNatChars 0 rest).map (fun n => -(n : Int))
      else if c = '+' then
        if rest = [] then none else (parseNatChars 0 rest).map (fun n => (n : Int))
      else (parseNatChars 0 (c :: rest)).map (fun n => (n : Int))

/-- Python `int(value)` on a string: strip whitespace, then an optional sign
followed by decimal digits; anything else raises `ValueError` (`none`). -/
def parse_int (s : String) : Option Int :=
  parseIntChars (trimChars s.toList)

/-- Python dict assignment `d[k] = v`: update in place if the key exists,
else append. -/
def dictInsert (d : List (String × Int)) (k : String) (v : Int) : List (String × Int) :=
  match d with
  | [] => [(k, v)]
  | (k', v') :: rest => if k' = k then (k, v) :: rest else (k', v') :: dictInsert rest k v

/-- `lexicon[word][emotion] = value` on the nested dict. -/
def lexInsert (lex : Lexicon) (w : String) (e : String) (v : Int) : Lexicon :=
  match lex with
  | [] => [(w, [(e, v)])]
  | (w', d) :: rest =>
      if w' = w then (w, dictInsert d e v) :: rest else (w', d) :: lexInsert rest w e v

/-- The line loop of `load_nrc_lexicon`: strip, split on tabs, keep exactly
three fields, parse the intensity with `int` (a parse failure raises). -/
def loadLines (lex : Lexicon) : List String → Except String Lexicon
  | [] => Except.ok lex
  | line :: rest =>
      match lineFields line with
      | [word, emotion, value] =>
          match parse_int value with
          | some v => loadLines (lexInsert lex word emotion v) rest
          | none => Except.error ("invalid literal for int: " ++ value)
      | _ => loadLines lex rest

/-- `load_nrc_lexicon`: `None` when the file is missing, otherwise the lexicon
built from the lines (an unparseable intensity raises out of the function). -/
def load_nrc_lexicon (file : Option (List String)) : Except String (Option Lexicon) :=
  match file with
  | none => Except.ok none
  | some lines => (loadLines [] lines).map some

/-- `scores[emotion] += v` on the running totals. -/
def bump (scores : List (String × Int)) (e : String) (v : Int) : List (String × Int) :=
  scores.map (fun p => if p.1 = e then (p.1, p.2 + v) else p)

/-- The body of the word loop of `analyze_emotions`: if the word is in the
lexicon, add its intensity for every emotion category it carries. -/
def applyWord (lexicon : Lexicon) (scores : List (String × Int)) (word : String) :
    List (String × Int) :=
  match lexicon.lookup word with
  | some entry =>
      emotions.foldl (fun sc e =>
        match entry.lookup e with
        | some v => bump sc e v
        | none => sc) scores
  | none => scores

/-- The zero-initialized emotion totals. -/
def zeroScores : List (String × Int) := emotions.map (fun e => (e, 0))

/-- `analyze_emotions`: totals start at zero for all 8 categories; a
tokenization failure (`tok` returning `none`, i.e. the `except` branch)
yields the zero scores. -/
def analyze_emotions (tok : String → Option (List String)) (text : String)
    (lexicon : Lexicon) : List (String × Int) :=
  match tok text.toLower with
  | none => zeroScores
  | some words => words.foldl (applyWord lexicon) zeroScores

/-- One scored row of `analyzed_df`: the verse columns, the four VADER
columns, and the emotion columns when present. -/
structure ScoredRow where
  book : String
  chapter : Int
  verse : Int
  text : String
  pos : Rat
  neg : Rat
  neu : Rat
  compound : Rat
  emos : List (String × Int)
deriving DecidableEq

/-- Project a scored row back to its `[Book, Chapter, Verse, Text]` columns. -/
def ScoredRow.toVerse (r : ScoredRow) : Verse :=
  { book := r.book, chapter := r.chapter, verse := r.verse, text := r.text }

/-- The scored dataframe plus the fact of whether the emotion columns were
concatenated (they are iff the lexicon was truthy at analysis time). -/
structure ScoredCorpus where
  rows : List ScoredRow
  hasEmotions : Bool
deriving DecidableEq

/-- Score one verse: VADER always, NRC emotions iff the lexicon is truthy. -/
def scoreVerse (polarity : String → Polarity) (tok : String → Option (List String))
    (lex : Option Lexicon) (v : Verse) : ScoredRow :=
  let s := polarity v.text
  { book := v.book, chapter := v.chapter, verse := v.verse, text := v.text,
    pos := s.pos, neg := s.neg, neu := s.neu, compound := s.compound,
    emos := if lexTruthy lex then analyze_emotions tok v.text (lex.getD []) else [] }

/-- `analyze_sentiments`: map the scorer over the corpus in order; lexicon
truthiness decides, once, whether emotion columns exist. -/
def analyze_sentiments (polarity : String → Polarity)
    (tok : String → Option (List String)) (lex : Option Lexicon)
    (df : List Verse) : ScoredCorpus :=
  { rows := df.map (scoreVerse polarity tok lex), hasEmotions := lexTruthy lex }

/-- Descending insertion step of `sortDescBy`. Where it places equal keys
is a choice of this concrete model, not something the code's `sort_values`
(default quicksort, not stable) guarantees; no theorem about the program
may rely on it. -/
def oInsertD {α β : Type} [LinearOrder β] (key : α → β) (a : α) : List α → List α
  | [] => [a]
  | b :: l => if key b ≤ key a then a :: b :: l else b :: oInsertD key a l

/-- A sorted-permutation model of `sort_values(by=key, ascending=False)`:
one concrete refinement of the `SortValuesResult` contract. The code's
default quicksort leaves tie order unspecified, so only properties
independent of this model's tie order are asserted of the program. -/
def sortDescBy {α β : Type} [LinearOrder β] (key : α → β) : List α → List α
  | [] => []
  | a :: l => oInsertD key a (sortDescBy key l)

/-- The contract of the code's `sort_values(by=key, ascending=False)` call,
modelled from the pandas/numpy documentation of the default
`kind='quicksort'`: the library promises only some permutation of the input
sorted non-increasingly by the key; the relative order of equal-key rows is
unspecified (quicksort is documented as not stable). -/
def SortValuesResult (key : ScoredRow → Rat) (input output : List ScoredRow) : Prop :=
  output.Perm input ∧ output.Pairwise (fun a b => key b ≤ key a)

/-- Lexicographic comparison of character lists by code point, the model of
Python string `<=` used by `groupby`'s key sorting. -/
def lexLeb : List Char → List Char → Bool
  | [], _ => true
  | _ :: _, [] => false
  | a :: as, b :: bs => if a = b then lexLeb as bs else decide (a < b)

/-- Python string `<=` (code-point lexicographic). -/
def strLeb (s t : String) : Bool := lexLeb s.toList t.toList

/-- Ascending insertion for strings under `strLeb`. -/
def oInsertStr (a : String) : List String → List String
  | [] => [a]
  | b :: l => if strLeb a b then a :: b :: l else b :: oInsertStr a l

/-- Ascending sort of strings, the model of `groupby`'s sorted group keys. -/
def sortStrAsc : List String → List String
  | [] => []
  | a :: l => oInsertStr a (sortStrAsc l)

/-- The `emotion_map` dict of `get_top_verses`. -/
def emotion_map (emotion : String) : Option String :=
  match emotion with
  | "Joy" => some "joy"
  | "Trust" => some "trust"
  | "Fear" => some "fear"
  | "Surprise" => some "surprise"
  | "Sadness" => some "sadness"
  | "Disgust" => some "disgust"
  | "Anger" => some "anger"
  | "Anticipation" => some "anticipation"
  | _ => none

/-- The `sentiment_map` dict with its `.get(emotion, 'neu')` default. -/
def sentiment_map (emotion : String) : String :=
  match emotion with
  | "Joy" => "pos"
  | "Trust" => "pos"
  | "Fear" => "neg"
  | "Surprise" => "neu"
  | "Sadness" => "neg"
  | "Disgust" => "neg"
  | "Anger" => "neg"
  | "Anticipation" => "pos"
  | _ => "neu"

/-- Column access on a VADER column name. -/
def vader_col (c : String) (r : ScoredRow) : Rat :=
  if c = "pos" then r.pos
  else if c = "neg" then r.neg
  else if c = "neu" then r.neu
  else if c = "compound" then r.compound
  else 0

/-- Column access on an NRC emotion column. -/
def emo_val (r : ScoredRow) (e : String) : Int :=
  (r.emos.lookup e).getD 0

/-- `sorted_df.head(10)[['Book', 'Chapter', 'Verse', 'Text']]`. -/
def top10 (sorted : List ScoredRow) : List Verse :=
  (sorted.take 10).map ScoredRow.toVerse

/-- `get_top_verses`: sort by the NRC emotion column when the lexicon is
truthy and the column exists, else fall back to the mapped VADER column
(defaulting to `neu` for unrecognized names); return the first 10 rows'
verse columns. -/
def get_top_verses (lex : Option Lexicon) (analyzed : ScoredCorpus)
    (emotion : String) : List Verse :=
  match emotion_map emotion with
  | some ne =>
      if lexTruthy lex && analyzed.hasEmotions then
        top10 (sortDescBy (fun r => emo_val r ne) analyzed.rows)
      else
        top10 (sortDescBy (vader_col (sentiment_map emotion)) analyzed.rows)
  | none => top10 (sortDescBy (vader_col (sentiment_map emotion)) analyzed.rows)

/-- The distinct values of a list in first-appearance order. -/
def firstApp (seen : List String) : List String → List String
  | [] => []
  | a :: l => if a ∈ seen then firstApp seen l else a :: firstApp (a :: seen) l

/-- Distinct books of the corpus, in first-appearance order. -/
def first_appearance (l : List String) : List String := firstApp [] l

/-- Arithmetic mean of a list of rationals. -/
def ratMean (l : List Rat) : Rat := l.sum / (l.length : Rat)

/-- The per-book mean compound table, keys in `groupby`'s ascending order. -/
def bookMeans (rows : List ScoredRow) : List (String × Rat) :=
  (sortStrAsc (first_appearance (rows.map ScoredRow.book))).map
    (fun b => (b, ratMean ((rows.filter (fun r => r.book = b)).map ScoredRow.compound)))

/-- `rank_books`: group by book (pandas sorts group keys ascending), take the
mean of the `compound` column, sort descending by that mean. -/
def rank_books (analyzed : ScoredCorpus) : List (String × Rat) :=
  sortDescBy Prod.snd (bookMeans analyzed.rows)

section SortLemmas

variable {α β : Type} [LinearOrder β] (key : α → β)

theorem oInsertD_perm (a : α) (l : List α) : (oInsertD key a l).Perm (a :: l) := by
  induction l with
  | nil => simp [oInsertD]
  | cons b t ih =>
      by_cases h : key b ≤ key a
      · simp [oInsertD, h]
      · simp only [oInsertD, if_neg h]
        exact (ih.cons b).trans (List.Perm.swap a b t)

theorem sortDescBy_perm (l : List α) : (sortDescBy key l).Perm l := by
  induction l with
  | nil => simp [sortDescBy]
  | cons a t ih =>
      exact (oInsertD_perm key a (sortDescBy key t)).trans (ih.cons a)

theorem mem_oInsertD {x a : α} {l : List α} :
    x ∈ oInsertD key a l ↔ x = a ∨ x ∈ l := by
  rw [(oInsertD_perm key a l).mem_iff, List.mem_cons]

theorem pairwise_oInsertD (a : α) {l : List α}
    (h : l.Pairwise (fun x y => key y ≤ key x)) :
    (oInsertD key a l).Pairwise (fun x y => key y ≤ key x) := by
  induction l with
  | nil => simp [oInsertD]
  | cons b t ih =>
      rcases h with - | ⟨hb, ht⟩
      rw [oInsertD]
      by_cases hba : key b ≤ key a
      · rw [if_pos hba]
        refine List.Pairwise.cons ?_ (List.Pairwise.cons hb ht)
        intro x hx
        rcases List.mem_cons.mp hx with rfl | hx
        · exact hba
        · exact le_trans (hb x hx) hba
      · rw [if_neg hba]
        refine List.Pairwise.cons ?_ (ih ht)
        intro x hx
        rcases (mem_oInsertD key).mp hx with rfl | hx
        · exact le_of_lt (lt_of_not_le hba)
        · exact hb x hx

theorem pairwise_sortDescBy (l : List α) :
    (sortDescBy key l).Pairwise (fun x y => key y ≤ key x) := by
  induction l with
  | nil => simp [sortDescBy]
  | cons a t ih => exact pairwise_oInsertD key a ih

end SortLemmas

section StrOrder

theorem oInsertStr_perm (a : String) (l : List String) :
    (oInsertStr a l).Perm (a :: l) := by
  induction l with
  | nil => simp [oInsertStr]
  | cons b t ih =>
      by_cases h : strLeb a b = true
      · simp [oInsertStr, h]
      · simp only [oInsertStr, if_neg h]
        exact (ih.cons b).trans (List.Perm.swap a b t)

theorem sortStrAsc_perm (l : List String) : (sortStrAsc l).Perm l := by
  induction l with
  | nil => simp [sortStrAsc]
  | cons a t ih =>
      exact (oInsertStr_perm a (sortStrAsc t)).trans (ih.cons a)

end StrOrder

section HelperLemmas

theorem mem_firstApp {x : String} : ∀ (seen l : List String),
    x ∈ firstApp seen l ↔ x ∈ l ∧ x ∉ seen := by
  intro seen l
  induction l generalizing seen with
  | nil => simp [firstApp]
  | cons a t ih =>
      rw [firstApp]
      by_cases ha : a ∈ seen
      · rw [if_pos ha, ih seen]
        constructor
        · rintro ⟨hx, hs⟩
          exact ⟨List.mem_cons_of_mem a hx, hs⟩
        · rintro ⟨hx, hs⟩
          rcases List.mem_cons.mp hx with rfl | hx
          · exact absurd ha hs
          · exact ⟨hx, hs⟩
      · rw [if_neg ha, List.mem_cons, ih (a :: seen)]
        constructor
        · rintro (rfl | ⟨hx, hs⟩)
          · exact ⟨List.mem_cons_self x t, ha⟩
          · exact ⟨List.mem_cons_of_mem a hx, fun hc => hs (List.mem_cons_of_mem a hc)⟩
        · rintro ⟨hx, hs⟩
          by_cases hxa : x = a
          · exact Or.inl hxa
          · rcases List.mem_cons.mp hx with rfl | hx
            · exact Or.inl rfl
            · exact Or.inr ⟨hx, by simp [hxa, hs]⟩

theorem nodup_firstApp : ∀ (seen l : List String), (firstApp seen l).Nodup := by
  intro seen l
  induction l generalizing seen with
  | nil => simp [firstApp]
  | cons a t ih =>
      rw [firstApp]
      by_cases ha : a ∈ seen
      · rw [if_pos ha]
        exact ih seen
      · rw [if_neg ha]
        refine List.Nodup.cons ?_ (ih (a :: seen))
        intro hmem
        exact ((mem_firstApp (a :: seen) t).mp hmem).2 (List.mem_cons_self a seen)

theorem mem_first_appearance {x : String} {l : List String} :
    x ∈ first_appearance l ↔ x ∈ l := by
  rw [first_appearance, mem_firstApp]
  simp

theorem nodup_first_appearance (l : List String) : (first_appearance l).Nodup :=
  nodup_firstApp [] l

theorem lookup_mem {γ : Type} {l : List (String × γ)} {k : String} {v : γ}
    (h : l.lookup k = some v) : (k, v) ∈ l := by
  induction l with
  | nil => simp [List.lookup] at h
  | cons a t ih =>
      obtain ⟨a1, a2⟩ := a
      by_cases hk : k = a1
      · subst hk
        simp only [List.lookup, beq_self_eq_true, Option.some.injEq] at h
        subst h
        exact List.mem_cons_self _ _
      · have hb : (k == a1) = false := beq_eq_false_iff_ne.mpr hk
        simp only [List.lookup, hb] at h
        exact List.mem_cons_of_mem _ (ih h)

end HelperLemmas

section ResolutionLemmas

theorem vader_col_neu : vader_col "neu" = ScoredRow.neu := by
  funext r
  simp [vader_col]

theorem sentiment_map_of_unrecognized {e : String} (h : emotion_map e = none) :
    sentiment_map e = "neu" := by
  unfold sentiment_map
  split
  · simp [emotion_map] at h
  · simp [emotion_map] at h
  · simp [emotion_map] at h
  · simp [emotion_map] at h
  · simp [emotion_map] at h
  · simp [emotion_map] at h
  · simp [emotion_map] at h
  · simp [emotion_map] at h
  · rfl

end ResolutionLemmas

section EmotionScorerLemmas

theorem foldl_invariant {γ δ : Type} {P : γ → Prop} {f : γ → δ → γ}
    (hf : ∀ c d, P c → P (f c d)) : ∀ (l : List δ) {c}, P c → P (l.foldl f c) := by
  intro l
  induction l with
  | nil => intro c hc; exact hc
  | cons d t ih =>
      intro c hc
      rw [List.foldl_cons]
      exact ih (hf c d hc)

theorem bump_keys (scores : List (String × Int)) (e : String) (v : Int) :
    (bump scores e v).map Prod.fst = scores.map Prod.fst := by
  rw [bump, List.map_map]
  refine List.map_congr_left ?_
  intro p hp
  by_cases h : p.1 = e <;> simp [h]

theorem applyWord_keys (lexicon : Lexicon) (scores : List (String × Int)) (word : String) :
    (applyWord lexicon scores word).map Prod.fst = scores.map Prod.fst := by
  rw [applyWord]
  cases lexicon.lookup word with
  | none => rfl
  | some entry =>
      refine foldl_invariant (P := fun (sc : List (String × Int)) => sc.map Prod.fst = scores.map Prod.fst)
        ?_ emotions rfl
      intro sc e hsc
      cases entry.lookup e with
      | none => exact hsc
      | some v => rw [bump_keys, hsc]

theorem zeroScores_keys : zeroScores.map Prod.fst = emotions := by
  rw [zeroScores, List.map_map]
  exact List.map_id emotions ▸ List.map_congr_left (fun e he => rfl)

theorem bump_nonneg {scores : List (String × Int)} {e : String} {v : Int}
    (hv : 0 ≤ v) (h : ∀ p ∈ scores, 0 ≤ p.2) : ∀ p ∈ bump scores e v, 0 ≤ p.2 := by
  intro p hp
  obtain ⟨q, hq, rfl⟩ := List.mem_map.mp hp
  by_cases h1 : q.1 = e
  · simpa [h1] using add_nonneg (h q hq) hv
  · simpa [h1] using h q hq

theorem applyWord_nonneg {lexicon : Lexicon}
    (hlex : ∀ pe ∈ lexicon, ∀ q ∈ pe.2, 0 ≤ q.2)
    {scores : List (String × Int)} (h : ∀ p ∈ scores, 0 ≤ p.2) (word : String) :
    ∀ p ∈ applyWord lexicon scores word, 0 ≤ p.2 := by
  rw [applyWord]
  cases hw : lexicon.lookup word with
  | none => exact h
  | some entry =>
      have hentry : ∀ q ∈ entry, 0 ≤ q.2 := hlex (word, entry) (lookup_mem hw)
      refine foldl_invariant (P := fun (sc : List (String × Int)) => ∀ p ∈ sc, 0 ≤ p.2) ?_ emotions h
      intro sc e hsc
      cases he : entry.lookup e with
      | none => exact hsc
      | some v => exact bump_nonneg (hentry (e, v) (lookup_mem he)) hsc

theorem zeroScores_nonneg : ∀ p ∈ zeroScores, (0 : Int) ≤ p.2 := by
  intro p hp
  obtain ⟨e, -, rfl⟩ := List.mem_map.mp hp
  exact le_refl 0

end EmotionScorerLemmas

/-- C4: for every input text, every tokenizer outcome and every lexicon, the
Emotion Scorer returns a mapping whose keys are exactly the 8 emotion
categories (never a missing key), and when tokenization fails it returns the
zero-initialized score for every category instead of propagating the failure
(the embedding is a total function: no error outcome exists). -/
theorem C4_analyze_emotions_total (tok : String → Option (List String))
    (text : String) (lexicon : Lexicon) :
    (analyze_emotions tok text lexicon).map Prod.fst = emotions ∧
      (tok text.toLower = none →
        analyze_emotions tok text lexicon = emotions.map (fun e => (e, 0))) := by
  constructor
  · rw [analyze_emotions]
    cases tok text.toLower with
    | none => exact zeroScores_keys
    | some words =>
        refine foldl_invariant (P := fun (sc : List (String × Int)) => sc.map Prod.fst = emotions)
          ?_ words zeroScores_keys
        intro sc w hsc
        rw [applyWord_keys, hsc]
  · intro h
    rw [analyze_emotions, h]
    rfl

/-- Witness for C4 at a concrete input: a tokenizer that always fails, the
empty lexicon and a concrete text. -/
theorem C4_analyze_emotions_total_witness :
    (analyze_emotions (fun _ => none) "Let there be light" []).map Prod.fst = emotions ∧
      ((fun (_ : String) => (none : Option (List String))) "Let there be light".toLower = none →
        analyze_emotions (fun _ => none) "Let there be light" [] =
          emotions.map (fun e => (e, 0))) :=
  C4_analyze_emotions_total (fun _ => none) "Let there be light" []

/-- C8: if every intensity in the loaded lexicon is non-negative then every
per-category total returned by the Emotion Scorer is non-negative. -/
theorem C8_analyze_emotions_nonneg (tok : String → Option (List String))
    (text : String) (lexicon : Lexicon)
    (hlex : ∀ pe ∈ lexicon, ∀ q ∈ pe.2, (0 : Int) ≤ q.2) :
    ∀ p ∈ analyze_emotions tok text lexicon, (0 : Int) ≤ p.2 := by
  rw [analyze_emotions]
  cases tok text.toLower with
  | none => exact zeroScores_nonneg
  | some words =>
      refine foldl_invariant (P := fun (sc : List (String × Int)) => ∀ p ∈ sc, (0 : Int) ≤ p.2)
        ?_ words zeroScores_nonneg
      intro sc w hsc
      exact applyWord_nonneg hlex hsc w

/-- Witness for C8: a concrete one-word lexicon with intensity 1 and a
tokenizer producing that word twice. -/
theorem C8_analyze_emotions_nonneg_witness :
    (∀ pe ∈ ([("light", [("joy", 1)])] : Lexicon), ∀ q ∈ pe.2, (0 : Int) ≤ q.2) ∧
      ∀ p ∈ analyze_emotions (fun _ => some ["light", "light"]) "light light"
        [("light", [("joy", 1)])], (0 : Int) ≤ p.2 :=
  ⟨by decide,
    C8_analyze_emotions_nonneg (fun _ => some ["light", "light"]) "light light"
      [("light", [("joy", 1)])] (by decide)⟩

/-- C7: the aggregation is a deterministic function of the corpus, the
lexicon outcome and the scoring oracles (two calls agree), and the scored
table preserves the original corpus verse order (projecting the verse
columns of the output gives back the input corpus unchanged). -/
theorem C7_analyze_sentiments_deterministic (polarity : String → Polarity)
    (tok : String → Option (List String)) (lex : Option Lexicon) (df : List Verse) :
    analyze_sentiments polarity tok lex df = analyze_sentiments polarity tok lex df ∧
      (analyze_sentiments polarity tok lex df).rows.map ScoredRow.toVerse = df := by
  refine ⟨rfl, ?_⟩
  show (df.map (scoreVerse polarity tok lex)).map ScoredRow.toVerse = df
  rw [List.map_map]
  have h : ScoredRow.toVerse ∘ scoreVerse polarity tok lex = id := funext fun v => rfl
  rw [h, List.map_id]

/-- C9: for an emotion name outside the 8 recognized ones, `get_top_verses`
returns the first 10 verses of the corpus sorted descending by the neutral
polarity column, in emotion-aware and polarity-only modes alike (any `lex`
and any `analyzed`), because `sentiment_map.get` defaults to `neu`. -/
theorem C9_top_verses_unrecognized_neu (lex : Option Lexicon)
    (analyzed : ScoredCorpus) (emotion : String)
    (h : emotion_map emotion = none) :
    get_top_verses lex analyzed emotion =
      top10 (sortDescBy ScoredRow.neu analyzed.rows) := by
  simp only [get_top_verses, h]
  rw [sentiment_map_of_unrecognized h, vader_col_neu]

/-- Concrete scored rows used by the closed witnesses below. Both rows carry
equal compound scores, `rowA`'s book ("Mark") appears first in the corpus but
sorts after `rowB`'s ("Luke") alphabetically. -/
def rowA : ScoredRow :=
  { book := "Mark", chapter := 1, verse := 1, text := "alpha",
    pos := 1, neg := 0, neu := 2, compound := 0, emos := [] }

def rowB : ScoredRow :=
  { book := "Luke", chapter := 2, verse := 3, text := "beta",
    pos := 2, neg := 1, neu := 1, compound := 0, emos := [] }

def exCorpus : ScoredCorpus := { rows := [rowA, rowB], hasEmotions := false }

/-- Witness for C9: the unrecognized name "Happiness" on a concrete corpus
with the NRC lexicon loaded. -/
theorem C9_top_verses_unrecognized_neu_witness :
    emotion_map "Happiness" = none ∧
      get_top_verses (some [("light", [("joy", 1)])])
          { rows := [rowA, rowB], hasEmotions := true } "Happiness" =
        top10 (sortDescBy ScoredRow.neu [rowA, rowB]) :=
  ⟨rfl, C9_top_verses_unrecognized_neu (some [("light", [("joy", 1)])])
    { rows := [rowA, rowB], hasEmotions := true } "Happiness" rfl⟩

/-- C5: in polarity-only mode (lexicon absent) each of the 8 recognized
emotion names resolves to its fixed polarity column — Joy, Trust and
Anticipation to `pos`, Fear, Sadness, Disgust and Anger to `neg`, Surprise
to `neu` — and the verses are sorted descending by that column
before the first 10 are returned. -/
theorem C5_polarity_only_static_table (analyzed : ScoredCorpus) :
    get_top_verses none analyzed "Joy" = top10 (sortDescBy ScoredRow.pos analyzed.rows) ∧
    get_top_verses none analyzed "Trust" = top10 (sortDescBy ScoredRow.pos analyzed.rows) ∧
    get_top_verses none analyzed "Anticipation" =
      top10 (sortDescBy ScoredRow.pos analyzed.rows) ∧
    get_top_verses none analyzed "Fear" = top10 (sortDescBy ScoredRow.neg analyzed.rows) ∧
    get_top_verses none analyzed "Sadness" =
      top10 (sortDescBy ScoredRow.neg analyzed.rows) ∧
    get_top_verses none analyzed "Disgust" =
      top10 (sortDescBy ScoredRow.neg analyzed.rows) ∧
    get_top_verses none analyzed "Anger" = top10 (sortDescBy ScoredRow.neg analyzed.rows) ∧
    get_top_verses none analyzed "Surprise" =
      top10 (sortDescBy ScoredRow.neu analyzed.rows) :=
  ⟨rfl, rfl, rfl, rfl, rfl, rfl, rfl, rfl⟩

/-- C6: evaluation of the code at the failing input. The unrecognized
emotion name "Happiness" is not rejected: `get_top_verses` silently answers
with the corpus sorted by the neutral column (here `rowA` with neu = 2
before `rowB` with neu = 1), contradicting the specified signalling of a
caller error. -/
theorem C6_unrecognized_not_rejected :
    get_top_verses none exCorpus "Happiness" =
      [{ book := "Mark", chapter := 1, verse := 1, text := "alpha" },
        { book := "Luke", chapter := 2, verse := 3, text := "beta" }] := rfl

/-- C10: a lexicon file whose line has exactly three tab-separated fields but
a non-integer intensity makes the load raise (escape with an error) instead
of skipping the line or returning Absent. -/
theorem C10_load_raises_on_bad_int :
    (lineFields "weep\tsadness\t0.5").length = 3 ∧
      load_nrc_lexicon (some ["weep\tsadness\t0.5"]) =
        Except.error "invalid literal for int: 0.5" :=
  ⟨rfl, rfl⟩

section LoadLemmas

/-- Membership of a (word, emotion) key in the nested lexicon dict. -/
def lexHasKey (lex : Lexicon) (w e : String) : Bool :=
  match lex.lookup w with
  | some d => (d.lookup e).isSome
  | none => false

theorem lookup_dictInsert_self (d : List (String × Int)) (k : String) (v : Int) :
    (dictInsert d k v).lookup k = some v := by
  induction d with
  | nil => simp [dictInsert, List.lookup]
  | cons p t ih =>
      obtain ⟨k', v'⟩ := p
      by_cases h : k' = k
      · subst h
        simp [dictInsert, List.lookup]
      · simp only [dictInsert, if_neg h, List.lookup,
          beq_eq_false_iff_ne.mpr (Ne.symm h)]
        exact ih

theorem lookup_dictInsert_ne (d : List (String × Int)) (k : String) (v : Int)
    {k' : String} (h : k' ≠ k) :
    (dictInsert d k v).lookup k' = d.lookup k' := by
  induction d with
  | nil => simp [dictInsert, List.lookup, beq_eq_false_iff_ne.mpr h]
  | cons p t ih =>
      obtain ⟨a1, a2⟩ := p
      by_cases ha : a1 = k
      · subst ha
        simp [dictInsert, List.lookup, beq_eq_false_iff_ne.mpr h]
      · simp only [dictInsert, if_neg ha, List.lookup]
        cases hk : k' == a1 with
        | true => rfl
        | false => exact ih

theorem lookup_lexInsert_self (lex : Lexicon) (w e : String) (v : Int) :
    ∃ d, (lexInsert lex w e v).lookup w = some d ∧ d.lookup e = some v := by
  induction lex with
  | nil =>
      refine ⟨[(e, v)], ?_, ?_⟩
      · simp [lexInsert, List.lookup]
      · simp [List.lookup]
  | cons p t ih =>
      obtain ⟨w', d'⟩ := p
      by_cases h : w' = w
      · subst h
        refine ⟨dictInsert d' e v, ?_, lookup_dictInsert_self d' e v⟩
        simp [lexInsert, List.lookup]
      · obtain ⟨d, hd, hv⟩ := ih
        refine ⟨d, ?_, hv⟩
        simp only [lexInsert, if_neg h, List.lookup,
          beq_eq_false_iff_ne.mpr (Ne.symm h)]
        exact hd

theorem lexHasKey_lexInsert_self (lex : Lexicon) (w e : String) (v : Int) :
    lexHasKey (lexInsert lex w e v) w e = true := by
  obtain ⟨d, hd, hv⟩ := lookup_lexInsert_self lex w e v
  simp [lexHasKey, hd, hv]

theorem lexHasKey_lexInsert_mono (lex : Lexicon) (w e : String) (v : Int)
    {w' e' : String} (h : lexHasKey lex w' e' = true) :
    lexHasKey (lexInsert lex w e v) w' e' = true := by
  induction lex with
  | nil => simp [lexHasKey, List.lookup] at h
  | cons p t ih =>
      obtain ⟨w1, d1⟩ := p
      by_cases hw : w1 = w
      · subst hw
        by_cases hw' : w' = w1
        · subst hw'
          rw [lexHasKey, List.lookup] at h
          simp only [beq_self_eq_true] at h
          by_cases he : e' = e
          · subst he
            simp [lexInsert, lexHasKey, List.lookup, lookup_dictInsert_self]
          · simp only [lexInsert, if_pos rfl, lexHasKey, List.lookup,
              beq_self_eq_true]
            rw [lookup_dictInsert_ne d1 e v he]
            exact h
        · rw [lexHasKey, List.lookup, beq_eq_false_iff_ne.mpr hw'] at h
          simp only [lexInsert, if_pos rfl, lexHasKey, List.lookup,
            beq_eq_false_iff_ne.mpr hw']
          exact h
      · by_cases hw' : w' = w1
        · subst hw'
          rw [lexHasKey, List.lookup] at h
          simp only [beq_self_eq_true] at h
          simp only [lexInsert, if_neg hw, lexHasKey, List.lookup,
            beq_self_eq_true]
          exact h
        · rw [lexHasKey, List.lookup, beq_eq_false_iff_ne.mpr hw'] at h
          simp only [lexInsert, if_neg hw, lexHasKey, List.lookup,
            beq_eq_false_iff_ne.mpr hw']
          exact ih h

theorem loadLines_filter (lines : List String) : ∀ lex : Lexicon,
    loadLines lex lines =
      loadLines lex (lines.filter (fun l => (lineFields l).length = 3)) := by
  induction lines with
  | nil => intro lex; rfl
  | cons line rest ih =>
      intro lex
      rcases hl : lineFields line with - | ⟨w, - | ⟨e, - | ⟨v, - | ⟨x, xs⟩⟩⟩⟩
      · simp only [loadLines, hl, List.filter_cons]
        simpa [hl] using ih lex
      · simp only [loadLines, hl, List.filter_cons]
        simpa [hl] using ih lex
      · simp only [loadLines, hl, List.filter_cons]
        simpa [hl] using ih lex
      · simp only [loadLines, hl, List.filter_cons]
        cases hp : parse_int v with
        | none => simp [hl, loadLines, hp]
        | some n => simpa [hl, loadLines, hp] using ih (lexInsert lex w e n)
      · simp only [loadLines, hl, List.filter_cons]
        simpa [hl] using ih lex

theorem loadLines_ok (lines : List String)
    (hp : ∀ l ∈ lines, ∀ w e v', lineFields l = [w, e, v'] →
      (parse_int v').isSome = true) :
    ∀ lex : Lexicon, ∃ lexF, loadLines lex lines = Except.ok lexF ∧
      (∀ w e, lexHasKey lex w e = true → lexHasKey lexF w e = true) ∧
      (∀ l ∈ lines, ∀ w e v', lineFields l = [w, e, v'] →
        lexHasKey lexF w e = true) := by
  induction lines with
  | nil =>
      intro lex
      exact ⟨lex, rfl, fun w e h => h, by simp⟩
  | cons line rest ih =>
      intro lex
      have hline := hp line (List.mem_cons_self line rest)
      have hrest : ∀ l ∈ rest, ∀ w e v', lineFields l = [w, e, v'] →
          (parse_int v').isSome = true :=
        fun l hl => hp l (List.mem_cons_of_mem line hl)
      rcases hl : lineFields line with - | ⟨w, - | ⟨e, - | ⟨v, - | ⟨x, xs⟩⟩⟩⟩
      · obtain ⟨lexF, h1, h2, h3⟩ := ih hrest lex
        refine ⟨lexF, ?_, h2, ?_⟩
        · simpa only [loadLines, hl] using h1
        · intro l hml w e v' hf
          rcases List.mem_cons.mp hml with rfl | hml
          · rw [hl] at hf; simp at hf
          · exact h3 l hml w e v' hf
      · obtain ⟨lexF, h1, h2, h3⟩ := ih hrest lex
        refine ⟨lexF, ?_, h2, ?_⟩
        · simpa only [loadLines, hl] using h1
        · intro l hml w e v' hf
          rcases List.mem_cons.mp hml with rfl | hml
          · rw [hl] at hf; simp at hf
          · exact h3 l hml w e v' hf
      · obtain ⟨lexF, h1, h2, h3⟩ := ih hrest lex
        refine ⟨lexF, ?_, h2, ?_⟩
        · simpa only [loadLines, hl] using h1
        · intro l hml w e v' hf
          rcases List.mem_cons.mp hml with rfl | hml
          · rw [hl] at hf; simp at hf
          · exact h3 l hml w e v' hf
      · have hv : (parse_int v).isSome = true := hline w e v hl
        obtain ⟨n, hn⟩ := Option.isSome_iff_exists.mp hv
        obtain ⟨lexF, h1, h2, h3⟩ := ih hrest (lexInsert lex w e n)
        refine ⟨lexF, ?_, ?_, ?_⟩
        · simpa only [loadLines, hl, hn] using h1
        · intro w' e' h
          exact h2 w' e' (lexHasKey_lexInsert_mono lex w e n h)
        · intro l hml w' e' v' hf
          rcases List.mem_cons.mp hml with rfl | hml
          · rw [hl] at hf
            obtain ⟨rfl, rfl, rfl⟩ := by simpa using hf
            exact h2 w e (lexHasKey_lexInsert_self lex w e n)
          · exact h3 l hml w' e' v' hf
      · obtain ⟨lexF, h1, h2, h3⟩ := ih hrest lex
        refine ⟨lexF, ?_, h2, ?_⟩
        · simpa only [loadLines, hl] using h1
        · intro l hml w' e' v' hf
          rcases List.mem_cons.mp hml with rfl | hml
          · rw [hl] at hf; simp at hf
          · exact h3 l hml w' e' v' hf

end LoadLemmas

/-- C3 counterexample: an existing lexicon file whose single line has exactly
three tab-separated fields is not loaded silently — the whole load escapes
with an error, because the intensity field is not an integer literal. This
refutes the claim that every three-field line is loaded and that only the
field count matters. -/
theorem C3_counterexample_bad_intensity :
    (lineFields "abandon\tanger\tone").length = 3 ∧
      load_nrc_lexicon (some ["abandon\tanger\tone"]) =
        Except.error "invalid literal for int: one" :=
  ⟨rfl, rfl⟩

/-- C3 as amended: a missing file yields Absent (`none`) rather than an
error; lines whose field count differs from 3 are silently discarded
(filtering them away does not change the result of the load); and when every
three-field line's intensity parses as an integer the load succeeds with a
lexicon containing an entry for every such (word, emotion) key. -/
theorem C3_load_amended :
    load_nrc_lexicon none = Except.ok none ∧
      (∀ lines : List String,
        load_nrc_lexicon (some lines) =
          load_nrc_lexicon
            (some (lines.filter (fun l => (lineFields l).length = 3)))) ∧
      (∀ lines : List String,
        (∀ l ∈ lines, ∀ w e v', lineFields l = [w, e, v'] →
          (parse_int v').isSome = true) →
        ∃ lex, load_nrc_lexicon (some lines) = Except.ok (some lex) ∧
          ∀ l ∈ lines, ∀ w e v', lineFields l = [w, e, v'] →
            lexHasKey lex w e = true) := by
  refine ⟨rfl, ?_, ?_⟩
  · intro lines
    show (loadLines [] lines).map some = _
    rw [loadLines_filter lines []]
    rfl
  · intro lines hp
    obtain ⟨lexF, h1, -, h3⟩ := loadLines_ok lines hp []
    refine ⟨lexF, ?_, h3⟩
    show (loadLines [] lines).map some = _
    rw [h1]
    rfl

/-- Witness for C3 as amended, at the concrete two-line file
`["abandon\tanger\t1", "short line"]` (one well-formed entry, one line with a
single field). -/
theorem C3_load_amended_witness :
    load_nrc_lexicon none = Except.ok none ∧
      load_nrc_lexicon (some ["abandon\tanger\t1", "short line"]) =
        load_nrc_lexicon
          (some (["abandon\tanger\t1", "short line"].filter
            (fun l => (lineFields l).length = 3))) ∧
      (∀ l ∈ ["abandon\tanger\t1", "short line"], ∀ w e v',
        lineFields l = [w, e, v'] → (parse_int v').isSome = true) ∧
      ∃ lex, load_nrc_lexicon (some ["abandon\tanger\t1", "short line"]) =
          Except.ok (some lex) ∧
        ∀ l ∈ ["abandon\tanger\t1", "short line"], ∀ w e v',
          lineFields l = [w, e, v'] → lexHasKey lex w e = true := by
  have hp : ∀ l ∈ ["abandon\tanger\t1", "short line"], ∀ w e v',
      lineFields l = [w, e, v'] → (parse_int v').isSome = true := by
    intro l hl w e v' hf
    rcases List.mem_cons.mp hl with rfl | hl
    · have h0 : lineFields "abandon\tanger\t1" = ["abandon", "anger", "1"] := rfl
      rw [h0] at hf
      obtain ⟨-, -, rfl⟩ : "abandon" = w ∧ "anger" = e ∧ "1" = v' := by
        simpa using hf
      rfl
    · rcases List.mem_cons.mp hl with rfl | hl
      · have h0 : lineFields "short line" = ["short line"] := rfl
        rw [h0] at hf
        simp at hf
      · simp at hl
  exact ⟨C3_load_amended.1, C3_load_amended.2.1 _, hp, C3_load_amended.2.2 _ hp⟩

/-- Two rows with equal neutral scores, in corpus order, used as C1's
failing-input evidence. -/
def rowC : ScoredRow :=
  { book := "Acts", chapter := 3, verse := 5, text := "gamma",
    pos := 0, neg := 0, neu := 1, compound := 0, emos := [] }

def rowD : ScoredRow :=
  { book := "John", chapter := 4, verse := 7, text := "delta",
    pos := 0, neg := 0, neu := 1, compound := 0, emos := [] }

/-- C1 (code-bug evidence): the claimed stability is not a consequence of
the sorting contract the code actually has. For the corpus `[rowC, rowD]`,
whose rows carry equal neutral scores, the swapped arrangement
`[rowD, rowC]` also satisfies `SortValuesResult` — it is a permissible
output of the code's `sort_values(kind='quicksort')` call — yet it lists the
equal-score verses out of their original corpus order and changes the
head-10 verse projection (`top10`) that `get_top_verses` returns. -/
theorem C1_quicksort_contract_not_stable :
    SortValuesResult ScoredRow.neu [rowC, rowD] [rowD, rowC] ∧
      rowC.neu = rowD.neu ∧
      [rowD, rowC] ≠ [rowC, rowD] ∧
      top10 [rowD, rowC] ≠ top10 [rowC, rowD] := by
  refine ⟨⟨List.Perm.swap rowC rowD [], ?_⟩, rfl, ?_, ?_⟩
  · decide
  · decide
  · decide

section RankLemmas

theorem bookMeans_keys (rows : List ScoredRow) :
    (bookMeans rows).map Prod.fst =
      sortStrAsc (first_appearance (rows.map ScoredRow.book)) := by
  rw [bookMeans, List.map_map]
  have h : (Prod.fst ∘ fun b =>
      (b, ratMean ((rows.filter (fun r => r.book = b)).map ScoredRow.compound))) =
      id := funext fun b => rfl
  rw [h, List.map_id]

end RankLemmas

/-- C2 counterexample: a corpus whose two books, "Mark" then "Luke" in
first-appearance order, have equal mean compound score. The code returns
Luke before Mark (pandas `groupby` sorts group keys alphabetically), so ties
are not broken by first-appearance order as claimed. -/
theorem C2_counterexample_tiebreak :
    rank_books exCorpus = [("Luke", 0), ("Mark", 0)] ∧
      rank_books exCorpus ≠ [("Mark", 0), ("Luke", 0)] ∧
      first_appearance (exCorpus.rows.map ScoredRow.book) = ["Mark", "Luke"] ∧
      ratMean ((exCorpus.rows.filter (fun r => r.book = "Mark")).map
          ScoredRow.compound) =
        ratMean ((exCorpus.rows.filter (fun r => r.book = "Luke")).map
          ScoredRow.compound) := by
  have hfM : (exCorpus.rows.filter (fun r => r.book = "Mark")).map
      ScoredRow.compound = [(0 : Rat)] := rfl
  have hfL : (exCorpus.rows.filter (fun r => r.book = "Luke")).map
      ScoredRow.compound = [(0 : Rat)] := rfl
  have h0 : ratMean [(0 : Rat)] = 0 := by
    norm_num [ratMean]
  have hbm : bookMeans exCorpus.rows = [("Luke", 0), ("Mark", 0)] := by
    rw [bookMeans,
      show first_appearance (exCorpus.rows.map ScoredRow.book) = ["Mark", "Luke"]
        from rfl,
      show sortStrAsc ["Mark", "Luke"] = ["Luke", "Mark"] from rfl,
      List.map_cons, List.map_cons, List.map_nil, hfM, hfL, h0]
  have hrb : rank_books exCorpus = sortDescBy Prod.snd (bookMeans exCorpus.rows) := rfl
  refine ⟨?_, ?_, rfl, ?_⟩
  · rw [hrb, hbm]
    decide
  · rw [hrb, hbm]
    decide
  · rw [hfM, hfL]

/-- C2 as amended: for every non-empty scored corpus, `rank_books` has
exactly one entry per distinct book present (no duplicates, no missing and
no extra books), each entry's value is the arithmetic mean of the compound
score over exactly that book's verses, and entries are sorted non-increasing
by that mean. No order among groups with equal mean is asserted: the code's
default quicksort leaves it unspecified, and the counterexample shows it is
in any case not the first-appearance order. -/
theorem C2_rank_books_amended (analyzed : ScoredCorpus)
    (_hne : analyzed.rows ≠ []) :
    ((rank_books analyzed).map Prod.fst).Nodup ∧
    (∀ b, b ∈ (rank_books analyzed).map Prod.fst ↔
      b ∈ analyzed.rows.map ScoredRow.book) ∧
    (∀ p ∈ rank_books analyzed,
      p.2 = ratMean ((analyzed.rows.filter (fun r => r.book = p.1)).map
        ScoredRow.compound)) ∧
    (rank_books analyzed).Pairwise (fun p q => q.2 ≤ p.2) := by
  have hperm : (rank_books analyzed).Perm (bookMeans analyzed.rows) :=
    sortDescBy_perm Prod.snd (bookMeans analyzed.rows)
  have hkeysperm : ((rank_books analyzed).map Prod.fst).Perm
      (sortStrAsc (first_appearance (analyzed.rows.map ScoredRow.book))) := by
    rw [← bookMeans_keys]
    exact hperm.map Prod.fst
  refine ⟨?_, ?_, ?_, ?_⟩
  · exact hkeysperm.nodup_iff.mpr
      ((sortStrAsc_perm _).nodup_iff.mpr (nodup_first_appearance _))
  · intro b
    rw [hkeysperm.mem_iff, (sortStrAsc_perm _).mem_iff, mem_first_appearance]
  · intro p hp
    have hp' : p ∈ bookMeans analyzed.rows := hperm.mem_iff.mp hp
    rw [bookMeans] at hp'
    obtain ⟨b, hb, rfl⟩ := List.mem_map.mp hp'
    rfl
  · exact pairwise_sortDescBy Prod.snd (bookMeans analyzed.rows)

/-- Witness for C2 as amended, at the concrete non-empty two-book corpus. -/
theorem C2_rank_books_amended_witness :
    exCorpus.rows ≠ [] ∧
    (((rank_books exCorpus).map Prod.fst).Nodup ∧
    (∀ b, b ∈ (rank_books exCorpus).map Prod.fst ↔
      b ∈ exCorpus.rows.map ScoredRow.book) ∧
    (∀ p ∈ rank_books exCorpus,
      p.2 = ratMean ((exCorpus.rows.filter (fun r => r.book = p.1)).map
        ScoredRow.compound)) ∧
    (rank_books exCorpus).Pairwise (fun p q => q.2 ≤ p.2)) :=
  ⟨by decide, C2_rank_books_amended exCorpus (by decide)⟩
